import Mathlib

/-!
Verification of the transaction-extraction normalizer of `functions/api/analyze-image.js`
(and its sibling revisions): the candidate filter, field normalization (date, category,
amount, type), the `mapCategory` keyword table, the keep-first deduplicator, and the
"degrade to empty on parse failure" policy of the endpoint.

JavaScript numbers are modelled as rationals, JSON-decoded string fields as
`Option String` (`none` for an absent or null field), and the dynamically typed
`amount` field by an explicit sum type.  The current calendar date
(`new Date().toISOString().split('T')[0]` in the source) is passed in as the
`today : String` parameter.
-/

namespace MoneyApp

attribute [local semireducible] Rat.add Rat.mul Rat.sub Rat.inv

/-- ASCII lowercasing of a string, modelling JavaScript `String.prototype.toLowerCase`
on the ASCII range (every keyword in the source tables is ASCII). -/
def lowerStr (s : String) : String :=
  String.mk (s.data.map Char.toLower)

/-- The test `listStarts sub l` is true when `sub` is a prefix of `l`. -/
def listStarts : List Char → List Char → Bool
  | [], _ => true
  | _ :: _, [] => false
  | a :: as, b :: bs => a == b && listStarts as bs

/-- The test `listHasSub sub l` is true when `sub` occurs contiguously inside `l`. -/
def listHasSub (sub : List Char) : List Char → Bool
  | [] => sub.isEmpty
  | c :: cs => listStarts sub (c :: cs) || listHasSub sub cs

/-- Substring test, modelling JavaScript `String.prototype.includes`. -/
def incl (s sub : String) : Bool :=
  listHasSub sub.data s.data

/-- The category table of `mapCategory`, applied to the already-lowercased
merchant name and category text.  This is a line-by-line translation of the
body of `mapCategory` in `functions/api/analyze-image.js` after the two
`toLowerCase` calls. -/
def mapCategoryCore (lowerName lowerCat : String) : String :=
  if incl lowerName "tangerpay" then "laundry"
  else if incl lowerName "qut" || incl lowerName "queensland university" then "education"
  else if incl lowerName "iglu" then "accommodation"
  else if incl lowerCat "eating out" || incl lowerCat "takeaway" then "food"
  else if incl lowerCat "groceries" then "groceries"
  else if incl lowerCat "education" then "education"
  else if incl lowerCat "shopping" then "shopping"
  else if incl lowerCat "transfer" || incl lowerCat "payment" then "transfers"
  else if incl lowerCat "entertainment" then "entertainment"
  else if incl lowerCat "transport" then "vehicle"
  else if incl lowerCat "health" then "health"
  else if incl lowerName "kfc" || incl lowerName "mcdonald" || incl lowerName "cafe" then "food"
  else if incl lowerName "mart" || incl lowerName "coles" || incl lowerName "woolworths" then "groceries"
  else if incl lowerName "target" then "shopping"
  else "other"

/-- The function `mapCategory(name, originalCat)` from `functions/api/analyze-image.js`, for the
string-or-absent arguments the pipeline actually passes: `(name || '')` becomes
`name.getD ""`, likewise for the category text. -/
def mapCategory (name originalCat : Option String) : String :=
  mapCategoryCore (lowerStr (name.getD "")) (lowerStr (originalCat.getD ""))

example : mapCategory (some "QUT enrolment") (some "Fees") = "education" := by decide
example : mapCategory (some "zzz") (some "Fees") = "other" := by decide
example : mapCategory (some "KFC (Sebastopol)") (some "Eating out & takeaway") = "food" := by decide
example : mapCategory (some "Pizza Palace") (some "Eating out") = "food" := by decide
example : mapCategory (some "Pizza Palace") (some "food") = "other" := by decide

/-- The closed category taxonomy: the set of values `mapCategory` can return. -/
def categoryTaxonomy : List String :=
  ["laundry", "education", "accommodation", "food", "groceries", "shopping",
   "transfers", "entertainment", "vehicle", "health", "other"]

/-- A dynamically typed JavaScript value, as far as the category mapper can
observe one: undefined, null, a boolean, a number, or a string. -/
inductive JVal where
  | undef : JVal
  | null : JVal
  | bool : Bool → JVal
  | num : ℚ → JVal
  | str : String → JVal
deriving DecidableEq

/-- JavaScript truthiness of a `JVal`. -/
def jsTruthy : JVal → Bool
  | .undef => false
  | .null => false
  | .bool b => b
  | .num q => !(q == 0)
  | .str s => !(s == "")

/-- The JavaScript expression `v || ''`. -/
def jsOrEmpty (v : JVal) : JVal :=
  if jsTruthy v then v else .str ""

/-- Calling `.toLowerCase()` on a JavaScript value: defined on strings, a
TypeError on anything else. -/
def jsToLowerCase : JVal → Except String String
  | .str s => .ok (lowerStr s)
  | _ => .error "TypeError: toLowerCase is not a function"

/-- The function `mapCategory` under full JavaScript dynamic typing: `(name || '').toLowerCase()`
and `(originalCat || '').toLowerCase()` may throw when the argument is truthy but
not a string; otherwise the category table decides the result. -/
def mapCategoryJS (name originalCat : JVal) : Except String String := do
  let lowerName ← jsToLowerCase (jsOrEmpty name)
  let lowerCat ← jsToLowerCase (jsOrEmpty originalCat)
  pure (mapCategoryCore lowerName lowerCat)

/-- The `amount` field of a JSON-decoded candidate: a number, a string, or absent
(`absent` also models a null field, which behaves identically in the filter and
in `parseFloat`). -/
inductive JAmount where
  | absent : JAmount
  | num : ℚ → JAmount
  | str : String → JAmount
deriving DecidableEq

/-- JavaScript truthiness of the `amount` field. -/
def amountTruthy : JAmount → Bool
  | .absent => false
  | .num q => !(q == 0)
  | .str s => !(s == "")

/-- Digits-to-number accumulator. -/
def natOfDigits (ds : List Char) : ℕ :=
  ds.foldl (fun n c => 10 * n + (c.toNat - 48)) 0

/-- JavaScript `parseFloat` on a string, restricted to plain decimal literals
(leading whitespace, an optional sign, integer digits, an optional fractional
part); `none` models a NaN result.  Exponent notation and Infinity, which never
occur in the JSON number strings this pipeline sees, are not modelled. -/
def parseFloatStr (s : String) : Option ℚ :=
  let cs := s.data.dropWhile Char.isWhitespace
  let signed : Bool × List Char :=
    match cs with
    | '-' :: rest => (true, rest)
    | '+' :: rest => (false, rest)
    | _ => (false, cs)
  let intDigits := signed.2.takeWhile Char.isDigit
  let afterInt := signed.2.dropWhile Char.isDigit
  let fracDigits :=
    match afterInt with
    | '.' :: rest => rest.takeWhile Char.isDigit
    | _ => []
  if intDigits.isEmpty && fracDigits.isEmpty then none
  else
    let mag : ℚ :=
      (natOfDigits intDigits : ℚ) + (natOfDigits fracDigits : ℚ) / ((10 : ℚ) ^ fracDigits.length)
    some (if signed.1 then -mag else mag)

/-- JavaScript `parseFloat` applied to the `amount` field (a number is coerced to its own
numeric value; an absent or null field parses to NaN, i.e. `none`). -/
def parseAmount : JAmount → Option ℚ
  | .absent => none
  | .num q => some q
  | .str s => parseFloatStr s

example : parseFloatStr "24.3500" = some (487 / 20) := by decide
example : parseFloatStr "" = none := by decide
example : parseFloatStr "abc" = none := by decide
example : parseFloatStr "-3.5" = some (-7 / 2) := by decide

/-- JavaScript `Math.round`: round half toward positive infinity. -/
def jsRound (q : ℚ) : ℤ :=
  Int.floor (q + 1 / 2)

/-- Amount normalization from the source: `Math.round(x * 100) / 100`. -/
def normalizeAmount (q : ℚ) : ℚ :=
  ((jsRound (q * 100) : ℚ)) / 100

example : normalizeAmount (487 / 20) = 487 / 20 := by decide

/-- A JSON-decoded candidate transaction, before validation.  The field `ctype`
models the JSON `type` field (a Lean keyword). -/
structure Candidate where
  date : Option String
  description : Option String
  category : Option String
  amount : JAmount
  ctype : Option String
deriving DecidableEq

/-- A normalized transaction record as emitted by the standard branch of the
pipeline. -/
structure NormalizedTx where
  date : String
  description : String
  category : String
  amount : ℚ
  txType : String
deriving DecidableEq

/-- Truthiness of an optional string field. -/
def truthyStr : Option String → Bool
  | none => false
  | some s => !(s == "")

/-- The candidate filter from the source:
`tx.amount && parseFloat(tx.amount) > 0 && tx.description`. -/
def filterTx (tx : Candidate) : Bool :=
  amountTruthy tx.amount &&
    (match parseAmount tx.amount with
     | some q => decide (0 < q)
     | none => false) &&
    truthyStr tx.description

/-- The JavaScript expression `v || fallback` for an optional string. -/
def jsOr (v : Option String) (fallback : String) : String :=
  match v with
  | some s => if s == "" then fallback else s
  | none => fallback

/-- The per-candidate normalization from the source, with `today` standing for
the string `new Date().toISOString().split('T')[0]`. -/
def mapTx (today : String) (tx : Candidate) : NormalizedTx :=
  ⟨jsOr tx.date today,
   tx.description.getD "",
   mapCategory tx.description tx.category,
   normalizeAmount ((parseAmount tx.amount).getD 0),
   if tx.ctype == some "income" then "income" else "expense"⟩

/-- The JavaScript keep-first filter
`self.filter((item, index, self) => ex(item) || index === self.findIndex(t => dup(t, item)))`,
written positionally: element `i` of `self` survives when it is exempt or when the
first index whose element matches it is `i` itself. -/
def jsKeepFirst (dup : α → α → Bool) (ex : α → Bool) (self : List α) : List α :=
  (List.range self.length).filterMap fun i =>
    match self.get? i with
    | some x => if ex x || (self.findIdx (fun t => dup t x) == i) then some x else none
    | none => none

/-- Accumulator form of the keep-first filter: `prev` holds every element of the
original list strictly before the current position. -/
def keepAcc (dup : α → α → Bool) (ex : α → Bool) : List α → List α → List α
  | _, [] => []
  | prev, x :: rest =>
    if ex x || !(prev.any fun t => dup t x) then x :: keepAcc dup ex (prev ++ [x]) rest
    else keepAcc dup ex (prev ++ [x]) rest

/-- Declarative keep-first filter: element `i` survives when it is exempt or no
earlier element of the list matches it. -/
def keepFirstSpec (dup : α → α → Bool) (ex : α → Bool) (self : List α) : List α :=
  (List.range self.length).filterMap fun i =>
    match self.get? i with
    | some x =>
        if ex x || decide (∀ j, j < i → ∀ y, self.get? j = some y → dup y x = false) then
          some x
        else none
    | none => none

theorem findIdx_append_of_any (p : α → Bool) (l₁ l₂ : List α) (h : l₁.any p = true) :
    (l₁ ++ l₂).findIdx p = l₁.findIdx p := by
  induction l₁ with
  | nil => simp at h
  | cons a t ih =>
    simp only [List.any_cons, Bool.or_eq_true] at h
    cases h' : p a with
    | true => simp [List.cons_append, List.findIdx_cons, h']
    | false =>
      have ht : t.any p = true := by
        rcases h with h | h
        · rw [h'] at h; cases h
        · exact h
      simp [List.cons_append, List.findIdx_cons, h', ih ht]

theorem findIdx_append_of_none (p : α → Bool) (l₁ l₂ : List α) (h : l₁.any p = false) :
    (l₁ ++ l₂).findIdx p = l₁.length + l₂.findIdx p := by
  induction l₁ with
  | nil => simp
  | cons a t ih =>
    simp only [List.any_cons, Bool.or_eq_false_iff] at h
    simp only [List.cons_append, List.findIdx_cons, h.1, cond_false, List.length_cons,
      ih h.2]
    omega

theorem get?_append_self (prev : List α) (x : α) (rest : List α) :
    (prev ++ x :: rest).get? prev.length = some x := by
  induction prev with
  | nil => rfl
  | cons a t ih => simpa using ih

/-- The filter `jsKeepFirst` agrees with the accumulator form, provided the duplicate test is
reflexive (every element matches itself, so `findIndex` always hits at or before
the own position of the element). -/
theorem jsKeepFirst_go (dup : α → α → Bool) (ex : α → Bool)
    (href : ∀ x, dup x x = true) :
    ∀ (rest prev : List α),
      ((List.range rest.length).filterMap fun i =>
        match (prev ++ rest).get? (prev.length + i) with
        | some x =>
            if ex x || ((prev ++ rest).findIdx (fun t => dup t x) == prev.length + i) then
              some x
            else none
        | none => none) = keepAcc dup ex prev rest := by
  intro rest
  induction rest with
  | nil => intro prev; rfl
  | cons x rest ih =>
    intro prev
    rw [List.length_cons, List.range_succ_eq_map, List.filterMap_cons, List.filterMap_map]
    simp only [Nat.add_zero]
    have hx : (prev ++ x :: rest).get? prev.length = some x :=
      get?_append_self prev x rest
    have htail :
        (List.filterMap ((fun i =>
          match (prev ++ x :: rest).get? (prev.length + i) with
          | some y =>
              if ex y || ((prev ++ x :: rest).findIdx (fun t => dup t y) == prev.length + i)
              then some y else none
          | none => none) ∘ Nat.succ) (List.range rest.length)) = keepAcc dup ex (prev ++ [x]) rest := by
      rw [← ih (prev ++ [x])]
      apply List.filterMap_congr
      intro i _
      have hlist : prev ++ x :: rest = (prev ++ [x]) ++ rest := by simp
      have hlen : prev.length + Nat.succ i = (prev ++ [x]).length + i := by
        simp [List.length_append]; omega
      simp only [Function.comp_apply, hlist, hlen]
    cases hany : prev.any (fun t => dup t x) with
    | false =>
      -- no earlier duplicate: findIndex hits the element itself
      have hfind : (prev ++ x :: rest).findIdx (fun t => dup t x) = prev.length := by
        rw [findIdx_append_of_none _ _ _ hany, List.findIdx_cons, href x]
        rfl
      simp only [Nat.add_zero, hx, hfind, beq_self_eq_true, Bool.or_true, eq_self_iff_true,
        if_true, keepAcc, hany, Bool.not_false]
      rw [htail]
    | true =>
      -- an earlier duplicate exists: findIndex lands strictly inside `prev`
      have hlt : prev.findIdx (fun t => dup t x) < prev.length := by
        have hex2 : ∃ y ∈ prev, dup y x = true := by
          simpa using hany
        exact List.findIdx_lt_length_of_exists (by simpa using hex2)
      have hfind : ((prev ++ x :: rest).findIdx (fun t => dup t x) == prev.length) = false := by
        rw [findIdx_append_of_any _ _ _ hany]
        simp only [beq_eq_false_iff_ne, ne_eq]
        omega
      cases hex : ex x with
      | false =>
        simp only [Nat.add_zero, hx, hfind, hex, Bool.or_false, Bool.false_eq_true, if_false,
          keepAcc, hany, Bool.not_true]
        exact htail
      | true =>
        simp only [Nat.add_zero, hx, hfind, hex, Bool.or_false, eq_self_iff_true, if_true,
          keepAcc, hany, Bool.not_true]
        rw [htail]

theorem jsKeepFirst_eq_acc (dup : α → α → Bool) (ex : α → Bool)
    (href : ∀ x, dup x x = true) (l : List α) :
    jsKeepFirst dup ex l = keepAcc dup ex [] l := by
  have h := jsKeepFirst_go dup ex href l []
  rw [jsKeepFirst, ← h]
  apply List.filterMap_congr
  intro i _
  simp

theorem prefixNoDup_iff (dup : α → α → Bool) (prev tail : List α) (x : α) :
    (∀ j, j < prev.length → ∀ y, (prev ++ tail).get? j = some y → dup y x = false) ↔
      (prev.any fun t => dup t x) = false := by
  rw [List.any_eq_false]
  constructor
  · intro h y hy
    obtain ⟨j, hj⟩ := List.mem_iff_get?.mp hy
    have hlt : j < prev.length := by
      rcases List.get?_eq_some.mp hj with ⟨hl, _⟩
      exact hl
    have := h j hlt y (by rw [List.get?_append hlt]; exact hj)
    simp [this]
  · intro h j hj y hy
    rw [List.get?_append hj] at hy
    have : y ∈ prev := List.get?_mem hy
    have := h y this
    simpa using this

theorem keepFirstSpec_go (dup : α → α → Bool) (ex : α → Bool) :
    ∀ (rest prev : List α),
      ((List.range rest.length).filterMap fun i =>
        match (prev ++ rest).get? (prev.length + i) with
        | some x =>
            if ex x || decide (∀ j, j < prev.length + i →
                ∀ y, (prev ++ rest).get? j = some y → dup y x = false) then
              some x
            else none
        | none => none) = keepAcc dup ex prev rest := by
  intro rest
  induction rest with
  | nil => intro prev; rfl
  | cons x rest ih =>
    intro prev
    rw [List.length_cons, List.range_succ_eq_map, List.filterMap_cons, List.filterMap_map]
    simp only [Nat.add_zero]
    have hx : (prev ++ x :: rest).get? prev.length = some x :=
      get?_append_self prev x rest
    have hdec : decide (∀ j, j < prev.length →
        ∀ y, (prev ++ x :: rest).get? j = some y → dup y x = false) =
          !(prev.any fun t => dup t x) := by
      cases hany : prev.any (fun t => dup t x) with
      | false =>
        simp only [Bool.not_false]
        exact decide_eq_true ((prefixNoDup_iff dup prev (x :: rest) x).mpr hany)
      | true =>
        simp only [Bool.not_true]
        apply decide_eq_false
        intro hcontra
        rw [(prefixNoDup_iff dup prev (x :: rest) x).mp hcontra] at hany
        cases hany
    have htail :
        (List.filterMap ((fun i =>
          match (prev ++ x :: rest).get? (prev.length + i) with
          | some y =>
              if ex y || decide (∀ j, j < prev.length + i →
                  ∀ z, (prev ++ x :: rest).get? j = some z → dup z y = false) then
                some y
              else none
          | none => none) ∘ Nat.succ) (List.range rest.length)) =
            keepAcc dup ex (prev ++ [x]) rest := by
      rw [← ih (prev ++ [x])]
      apply List.filterMap_congr
      intro i _
      have hlist : prev ++ x :: rest = (prev ++ [x]) ++ rest := by simp
      have hlen : prev.length + Nat.succ i = (prev ++ [x]).length + i := by
        simp [List.length_append]; omega
      simp only [Function.comp_apply, hlist, hlen]
    cases hany : prev.any (fun t => dup t x) with
    | false =>
      rw [hany] at hdec
      simp only [hx, hdec, Bool.not_false, Bool.or_true, eq_self_iff_true, if_true]
      rw [htail, keepAcc, hany]
      simp
    | true =>
      rw [hany] at hdec
      cases hex : ex x with
      | false =>
        simp only [hx, hdec, hex, Bool.not_true, Bool.or_false, Bool.false_eq_true, if_false]
        rw [htail, keepAcc, hany, hex]
        simp
      | true =>
        simp only [hx, hdec, hex, Bool.not_true, Bool.or_false, eq_self_iff_true, if_true]
        rw [htail, keepAcc, hany, hex]
        simp

theorem keepFirstSpec_eq_acc (dup : α → α → Bool) (ex : α → Bool) (l : List α) :
    keepFirstSpec dup ex l = keepAcc dup ex [] l := by
  have h := keepFirstSpec_go dup ex l []
  rw [keepFirstSpec, ← h]
  apply List.filterMap_congr
  intro i _
  simp

/-- The keep-first filter of the source agrees with the declarative one: an element
survives exactly when it is exempt or no earlier element of the input matches it. -/
theorem jsKeepFirst_eq_spec (dup : α → α → Bool) (ex : α → Bool)
    (href : ∀ x, dup x x = true) (l : List α) :
    jsKeepFirst dup ex l = keepFirstSpec dup ex l := by
  rw [jsKeepFirst_eq_acc dup ex href l, keepFirstSpec_eq_acc]

theorem keepAcc_sublist (dup : α → α → Bool) (ex : α → Bool) :
    ∀ (rest prev : List α), List.Sublist (keepAcc dup ex prev rest) rest := by
  intro rest
  induction rest with
  | nil => intro prev; simp [keepAcc]
  | cons x rest ih =>
    intro prev
    rw [keepAcc]
    cases hcond : ex x || !(prev.any fun t => dup t x) with
    | false =>
      simp only [Bool.false_eq_true, if_false]
      exact (ih (prev ++ [x])).cons x
    | true =>
      simp only [eq_self_iff_true, if_true]
      exact (ih (prev ++ [x])).cons₂ x

theorem jsKeepFirst_sublist (dup : α → α → Bool) (ex : α → Bool)
    (href : ∀ x, dup x x = true) (l : List α) :
    List.Sublist (jsKeepFirst dup ex l) l := by
  rw [jsKeepFirst_eq_acc dup ex href l]
  exact keepAcc_sublist dup ex l []

theorem keepAcc_mem_any (dup : α → α → Bool) :
    ∀ (rest prev : List α) (x : α),
      x ∈ keepAcc dup (fun _ => false) prev rest → (prev.any fun t => dup t x) = false := by
  intro rest
  induction rest with
  | nil => intro prev x h; cases h
  | cons y rest ih =>
    intro prev x h
    rw [keepAcc] at h
    cases hany : prev.any (fun t => dup t y) with
    | false =>
      rw [hany] at h
      simp only [Bool.not_false, Bool.or_true, eq_self_iff_true, if_true] at h
      rcases List.mem_cons.mp h with h | h
      · subst h; exact hany
      · have := ih (prev ++ [y]) x h
        rw [List.any_append] at this
        exact (Bool.or_eq_false_iff.mp this).1
    | true =>
      rw [hany] at h
      simp only [Bool.not_true, Bool.or_false, Bool.false_eq_true, if_false] at h
      have := ih (prev ++ [y]) x h
      rw [List.any_append] at this
      exact (Bool.or_eq_false_iff.mp this).1

/-- Every two entries surviving the keep-first filter fail the duplicate test:
the earlier survivor never matches the later one. -/
theorem keepAcc_pairwise (dup : α → α → Bool) :
    ∀ (rest prev : List α),
      List.Pairwise (fun a b => dup a b = false) (keepAcc dup (fun _ => false) prev rest) := by
  intro rest
  induction rest with
  | nil => intro prev; exact List.Pairwise.nil
  | cons y rest ih =>
    intro prev
    rw [keepAcc]
    cases hany : prev.any (fun t => dup t y) with
    | false =>
      simp only [Bool.not_false, Bool.or_true, eq_self_iff_true, if_true]
      refine List.Pairwise.cons ?_ (ih (prev ++ [y]))
      intro b hb
      have := keepAcc_mem_any dup rest (prev ++ [y]) b hb
      rw [List.any_append] at this
      have h2 := (Bool.or_eq_false_iff.mp this).2
      simpa using h2
    | true =>
      simp only [Bool.not_true, Bool.or_false, Bool.false_eq_true, if_false]
      exact ih (prev ++ [y])

theorem keepAcc_of_pairwise (dup : α → α → Bool) :
    ∀ (l prev : List α),
      List.Pairwise (fun a b => dup a b = false) l →
      (∀ x ∈ l, (prev.any fun t => dup t x) = false) →
      keepAcc dup (fun _ => false) prev l = l := by
  intro l
  induction l with
  | nil => intro prev _ _; rfl
  | cons y t ih =>
    intro prev hp hprev
    rw [keepAcc, hprev y (List.mem_cons_self y t)]
    simp only [Bool.not_false, Bool.or_true, eq_self_iff_true, if_true, List.cons.injEq,
      true_and]
    apply ih (prev ++ [y]) (List.Pairwise.sublist (List.sublist_cons_self y t) hp)
    intro x hx
    rw [List.any_append]
    have h1 := hprev x (List.mem_cons_of_mem y hx)
    have h2 : dup y x = false := (List.pairwise_cons.mp hp).1 x hx
    simp [h1, h2]

/-- The duplicate test of the deduplicator:
`t.date === item.date && t.description === item.description && Math.abs(t.amount - item.amount) < 0.01`. -/
def isDup (t item : NormalizedTx) : Bool :=
  t.date == item.date && t.description == item.description &&
    decide (|t.amount - item.amount| < 1 / 100)

theorem isDup_refl (x : NormalizedTx) : isDup x x = true := by
  simp only [isDup, beq_self_eq_true, Bool.and_self, Bool.true_and, decide_eq_true_eq,
    sub_self, abs_zero]
  norm_num

/-- The deduplicator of the revisions without custom-split support
(`functions/api/analyze-image.js` in the Gemini and Llama revisions):
`transactions.filter((item, index, self) => index === self.findIndex(t => ...))`. -/
def dedupTransactions (l : List NormalizedTx) : List NormalizedTx :=
  jsKeepFirst isDup (fun _ => false) l

/-- Full normalization stage before deduplication: the candidate filter followed
by the per-candidate map. -/
def normalizeStage (today : String) (parsed : List Candidate) : List NormalizedTx :=
  (parsed.filter filterTx).map (mapTx today)

/-- The whole pipeline of the standard branch: filter, normalize, deduplicate. -/
def pipeline (today : String) (parsed : List Candidate) : List NormalizedTx :=
  dedupTransactions (normalizeStage today parsed)

/-- Re-reading a normalized record as a candidate, to feed the normalizer its own
output. -/
def recandidate (r : NormalizedTx) : Candidate :=
  ⟨some r.date, some r.description, some r.category, .num r.amount, some r.txType⟩

/-- Running the normalizer again on its own output records. -/
def renormalize (today : String) (l : List NormalizedTx) : List NormalizedTx :=
  pipeline today (l.map recandidate)

/-- A record of the main OpenRouter revision, whose map emits either a standard
record or a custom-split record; only the fields the deduplicator reads are
modelled, plus `splitType` and `payer` (`customItems` is opaque to the
deduplicator and omitted). -/
structure MainTx where
  date : String
  description : String
  category : Option String
  amount : ℚ
  splitType : Option String
  payer : Option String
  txType : String
deriving DecidableEq

/-- Duplicate test of the main revision (same three fields). -/
def isDupMain (t item : MainTx) : Bool :=
  t.date == item.date && t.description == item.description &&
    decide (|t.amount - item.amount| < 1 / 100)

theorem isDupMain_refl (x : MainTx) : isDupMain x x = true := by
  simp only [isDupMain, beq_self_eq_true, Bool.and_self, Bool.true_and, decide_eq_true_eq,
    sub_self, abs_zero]
  norm_num

/-- The custom-split exemption of the main revision: `item.splitType` being the text custom. -/
def isCustomSplit (item : MainTx) : Bool :=
  item.splitType == some "custom"

/-- The deduplicator of the main OpenRouter revision:
`transactions.filter((item, index, self) => item.splitType == custom || index === self.findIndex(t => ...))` (the first comparison is a strict string equality in the source). -/
def dedupMain (l : List MainTx) : List MainTx :=
  jsKeepFirst isDupMain isCustomSplit l

/-- The deduplication rule exactly as the specification states it, with no
custom-split exemption: an entry is dropped exactly when some earlier entry has
the same date, the same description and an amount within 0.01. -/
def dedupSpecStated (l : List MainTx) : List MainTx :=
  keepFirstSpec isDupMain (fun _ => false) l

/-- The deduplication rule of the main revision in declarative form: custom-split
entries are always kept; any other entry is dropped exactly when some earlier
entry matches it. -/
def dedupSpecExempt (l : List MainTx) : List MainTx :=
  keepFirstSpec isDupMain isCustomSplit l

/-- Whether a string matches the date pattern `^\d{4}-\d{2}-\d{2}$`. -/
def matchesDatePattern (s : String) : Bool :=
  match s.data with
  | [y1, y2, y3, y4, d1, m1, m2, d2, a1, a2] =>
      y1.isDigit && y2.isDigit && y3.isDigit && y4.isDigit && d1 == '-' &&
        m1.isDigit && m2.isDigit && d2 == '-' && a1.isDigit && a2.isDigit
  | _ => false

example : matchesDatePattern "2025-11-02" = true := by decide
example : matchesDatePattern "Sun 02 Nov 2025" = false := by decide

theorem dropWhile_length_le (p : α → Bool) (l : List α) :
    (l.dropWhile p).length ≤ l.length := by
  induction l with
  | nil => simp [List.dropWhile]
  | cons a t iht =>
    rw [List.dropWhile]
    cases p a with
    | false => simp
    | true => simp only [List.length_cons]; omega

/-- Strip every occurrence of a case-insensitive nonempty token (head `t0`, tail
`trest`, both already lowercase) together with any whitespace that follows it,
modelling one global regex replacement `.replace(/tok\s*\/gi, '')` for a
literal token.  The `fuel` argument (instantiated with the list length, an upper
bound on the number of recursion steps) keeps the recursion structural. -/
def stripTokenCI (t0 : Char) (trest : List Char) : ℕ → List Char → List Char
  | 0, _ => []
  | _, [] => []
  | fuel + 1, c :: cs =>
      if (List.take (trest.length + 1) (c :: cs)).map Char.toLower = t0 :: trest then
        stripTokenCI t0 trest fuel
          (List.dropWhile Char.isWhitespace (List.drop (trest.length + 1) (c :: cs)))
      else
        c :: stripTokenCI t0 trest fuel cs

/-- The backtick character. -/
def backtickChar : Char := Char.ofNat 96

/-- JavaScript `String.prototype.trim`: drop leading and trailing whitespace. -/
def jsTrim (s : String) : String :=
  String.mk (((s.data.dropWhile Char.isWhitespace).reverse.dropWhile Char.isWhitespace).reverse)

/-- The fence cleanup of the source:
`content.trim().replace(/\x60\x60\x60json\s*\/gi, '').replace(/\x60\x60\x60\s*\/gi, '').trim()`. -/
def stripFences (content : String) : String :=
  let step1 := jsTrim content
  let step2 := String.mk (stripTokenCI backtickChar
    [backtickChar, backtickChar, 'j', 's', 'o', 'n'] step1.data.length step1.data)
  let step3 := String.mk (stripTokenCI backtickChar [backtickChar, backtickChar]
    step2.data.length step2.data)
  jsTrim step3

/-- The regex match `/\[[\s\S]*\]/`: the substring from the first opening square
bracket through the last closing square bracket after it, or nothing if no such
pair exists. -/
def extractArr (s : String) : Option String :=
  let fromOpen := s.data.dropWhile (fun c => !(c == '['))
  if fromOpen.isEmpty then none
  else
    let upToClose := fromOpen.reverse.dropWhile (fun c => !(c == ']'))
    if upToClose.isEmpty then none
    else some (String.mk upToClose.reverse)

example : extractArr "xx[1,2]yy" = some "[1,2]" := by decide
example : extractArr "no json here" = none := by decide
example : extractArr "] then [" = none := by decide

/-- The parse-and-normalize block of the endpoint, from the raw model text to the
final transaction list.  `parse` stands for `JSON.parse` followed by the use of
the result as an array: `none` models both a parse exception and a non-array
result (either way the `catch` leaves the transaction list empty). -/
def analyzeContent (parse : String → Option (List Candidate)) (today : String)
    (content : String) : List NormalizedTx :=
  match extractArr (stripFences content) with
  | none => []
  | some jsonStr =>
      match parse jsonStr with
      | none => []
      | some parsed => pipeline today parsed

/-- The response body built by the endpoint around the transaction list:
`success: transactions.length > 0`, the list itself, and its count. -/
structure EndpointResponse where
  success : Bool
  transactions : List NormalizedTx
  count : ℕ
deriving DecidableEq

/-- The response fields `success: transactions.length > 0`, the list, and its length. -/
def respond (txs : List NormalizedTx) : EndpointResponse :=
  ⟨decide (0 < txs.length), txs, txs.length⟩

example :
    pipeline "2026-10-12"
      [⟨some "Sun 02 Nov 2025", some "KFC", none, .num 5, none⟩] =
    [⟨"Sun 02 Nov 2025", "KFC", "food", 5, "expense"⟩] := by decide

example :
    pipeline "2026-10-12"
      [⟨none, some "Cafe", none, .str "24.3500", some "income"⟩,
       ⟨some "2025-01-01", some "Cafe", none, .num 0, none⟩] =
    [⟨"2026-10-12", "Cafe", "food", 487 / 20, "income"⟩] := by decide

example :
    pipeline "2026-10-12"
      [⟨some "2025-01-01", some "Cafe", none, .num 5, none⟩,
       ⟨some "2025-01-01", some "Cafe", none, .num (5 + 4 / 1000), none⟩] =
    [⟨"2025-01-01", "Cafe", "food", 5, "expense"⟩] := by decide

example :
    stripFences " ```jSoN  [1] ``` " = "[1]" := by decide

example :
    analyzeContent (fun _ => none) "2026-10-12" "```json [1,2] ```" = [] := by decide

/-- The candidate filter keeps an entry exactly when the description is truthy and
the amount parses to a strictly positive number (the leading truthiness test on
the raw amount is subsumed: a falsy amount never parses to a positive number). -/
theorem filterTx_iff (tx : Candidate) :
    filterTx tx = true ↔
      truthyStr tx.description = true ∧ ∃ q, parseAmount tx.amount = some q ∧ 0 < q := by
  constructor
  · intro h
    simp only [filterTx, Bool.and_eq_true] at h
    obtain ⟨⟨h1, h2⟩, h3⟩ := h
    refine ⟨h3, ?_⟩
    cases hp : parseAmount tx.amount with
    | none => rw [hp] at h2; cases h2
    | some q =>
      rw [hp] at h2
      exact ⟨q, rfl, of_decide_eq_true h2⟩
  · rintro ⟨h3, q, hp, hq⟩
    simp only [filterTx, Bool.and_eq_true]
    refine ⟨⟨?_, ?_⟩, h3⟩
    · cases ha : tx.amount with
      | absent => rw [ha] at hp; cases hp
      | num p =>
        rw [ha] at hp
        simp only [parseAmount, Option.some.injEq] at hp
        subst hp
        simp [amountTruthy, hq.ne']
      | str s =>
        rw [ha] at hp
        simp only [parseAmount] at hp
        simp only [amountTruthy]
        cases hse : s == "" with
        | false => rfl
        | true =>
          have hs : s = "" := eq_of_beq hse
          subst hs
          rw [(by decide : parseFloatStr "" = none)] at hp
          cases hp
    · rw [hp]
      exact decide_eq_true hq

theorem mem_of_mem_jsKeepFirst (dup : α → α → Bool) (ex : α → Bool)
    (href : ∀ x, dup x x = true) (l : List α) (x : α)
    (h : x ∈ jsKeepFirst dup ex l) : x ∈ l :=
  (jsKeepFirst_sublist dup ex href l).subset h

/-- Every record of the pipeline output comes from a candidate that passed the
filter, via the per-candidate map. -/
theorem mem_pipeline (today : String) (cs : List Candidate) (r : NormalizedTx)
    (h : r ∈ pipeline today cs) :
    ∃ tx ∈ cs, filterTx tx = true ∧ r = mapTx today tx := by
  have h2 : r ∈ normalizeStage today cs :=
    mem_of_mem_jsKeepFirst isDup (fun _ => false) isDup_refl _ r h
  rw [normalizeStage] at h2
  obtain ⟨tx, htx, rfl⟩ := List.mem_map.mp h2
  rcases List.mem_filter.mp htx with ⟨hmem, hf⟩
  exact ⟨tx, hmem, hf, rfl⟩

/-- Claim C4: a parsed candidate entry is excluded exactly when it lacks a truthy
description or its amount, coerced to a floating-point number, is missing,
non-numeric, or not strictly greater than 0; every entry that passes the filter
yields exactly one normalized record. -/
theorem candidate_filter_characterization :
    (∀ tx : Candidate,
      filterTx tx = true ↔
        truthyStr tx.description = true ∧ ∃ q, parseAmount tx.amount = some q ∧ 0 < q) ∧
    ∀ (today : String) (cs : List Candidate),
      (normalizeStage today cs).length = (cs.filter filterTx).length := by
  refine ⟨filterTx_iff, ?_⟩
  intro today cs
  simp [normalizeStage]

theorem candidate_filter_characterization_witness :
    filterTx ⟨none, some "X", none, .str "24.3500", none⟩ = true ∧
    (truthyStr (some "X") = true ∧
      ∃ q, parseAmount (.str "24.3500") = some q ∧ 0 < q) ∧
    filterTx ⟨some "2025-01-01", some "", none, .num 5, none⟩ = false ∧
    filterTx ⟨some "2025-01-01", some "Cafe", none, .num 0, none⟩ = false ∧
    filterTx ⟨some "2025-01-01", some "Cafe", none, .str "abc", none⟩ = false ∧
    filterTx ⟨some "2025-01-01", some "Cafe", none, .absent, none⟩ = false :=
  ⟨by decide,
   (candidate_filter_characterization.1 ⟨none, some "X", none, .str "24.3500", none⟩).mp
     (by decide),
   by decide, by decide, by decide, by decide⟩

/-- Claim C8: for every candidate that survives the filter, the output amount is
the parsed amount times 100, rounded to the nearest integer (half away from zero
for the positive amounts that pass the filter), divided by 100: an integer
number of cents within half a cent of the parsed value; `"24.3500"` becomes the
number `24.35`. -/
theorem amount_rounding_correct :
    (∀ (today : String) (tx : Candidate), filterTx tx = true →
      ∃ p, parseAmount tx.amount = some p ∧
        (mapTx today tx).amount = ((jsRound (p * 100) : ℤ) : ℚ) / 100 ∧
        (∃ n : ℤ, (mapTx today tx).amount = (n : ℚ) / 100) ∧
        |(mapTx today tx).amount - p| ≤ 1 / 200) ∧
    parseFloatStr "24.3500" = some (487 / 20) ∧
    normalizeAmount (487 / 20) = 487 / 20 := by
  refine ⟨?_, by decide, by decide⟩
  intro today tx hf
  obtain ⟨-, p, hp, hpos⟩ := (filterTx_iff tx).mp hf
  refine ⟨p, hp, ?_, ⟨jsRound (p * 100), ?_⟩, ?_⟩
  · simp [mapTx, hp, normalizeAmount]
  · simp [mapTx, hp, normalizeAmount]
  · have hamt : (mapTx today tx).amount = ((jsRound (p * 100) : ℤ) : ℚ) / 100 := by
      simp [mapTx, hp, normalizeAmount]
    rw [hamt]
    have h1 : ((jsRound (p * 100) : ℤ) : ℚ) ≤ p * 100 + 1 / 2 := Int.floor_le _
    have h2 : p * 100 + 1 / 2 - 1 < ((jsRound (p * 100) : ℤ) : ℚ) := Int.sub_one_lt_floor _
    rw [abs_le]
    constructor <;> linarith

theorem amount_rounding_correct_witness :
    filterTx ⟨none, some "X", none, .str "24.3500", none⟩ = true ∧
    ∃ p, parseAmount (Candidate.amount ⟨none, some "X", none, .str "24.3500", none⟩) = some p ∧
      (mapTx "2026-10-12" ⟨none, some "X", none, .str "24.3500", none⟩).amount =
        ((jsRound (p * 100) : ℤ) : ℚ) / 100 ∧
      (∃ n : ℤ, (mapTx "2026-10-12" ⟨none, some "X", none, .str "24.3500", none⟩).amount =
        (n : ℚ) / 100) ∧
      |(mapTx "2026-10-12" ⟨none, some "X", none, .str "24.3500", none⟩).amount - p| ≤ 1 / 200 :=
  ⟨by decide,
   amount_rounding_correct.1 "2026-10-12" ⟨none, some "X", none, .str "24.3500", none⟩
     (by decide)⟩

/-- Claim C2 counterexample: a surviving candidate whose date is truthy but not of
the form `YYYY-MM-DD` passes through unchanged — the pipeline contains no date
validation or reformatting, so the output date violates the claimed pattern
invariant. -/
theorem date_pattern_counterexample :
    (pipeline "2026-10-12"
      [⟨some "Sun 02 Nov 2025", some "KFC", none, .num 5, none⟩]).map
        (fun r => r.date) = ["Sun 02 Nov 2025"] ∧
    matchesDatePattern "Sun 02 Nov 2025" = false := by decide

/-- Claim C2 (amended): the output date is the date string of the candidate verbatim
whenever that string is truthy — with no validation, so it need not match
`^\d{4}-\d{2}-\d{2}$` — and is the current date `today` exactly when the
date of the candidate is absent or empty. -/
theorem date_passthrough_or_today (today : String) (cs : List Candidate)
    (r : NormalizedTx) (hr : r ∈ pipeline today cs) :
    ∃ tx ∈ cs,
      (truthyStr tx.date = true ∧ r.date = tx.date.getD "") ∨
      (truthyStr tx.date = false ∧ r.date = today) := by
  obtain ⟨tx, hmem, hf, rfl⟩ := mem_pipeline today cs r hr
  refine ⟨tx, hmem, ?_⟩
  cases hd : tx.date with
  | none => exact Or.inr ⟨rfl, by simp [mapTx, jsOr, hd]⟩
  | some s =>
    cases hse : s == "" with
    | true =>
      have hs : s = "" := eq_of_beq hse
      subst hs
      exact Or.inr ⟨rfl, by simp [mapTx, jsOr, hd]⟩
    | false =>
      refine Or.inl ⟨by simp [truthyStr, hd, hse], ?_⟩
      simp [mapTx, jsOr, hd, hse]

theorem date_passthrough_or_today_witness :
    (⟨"2025-01-01", "KFC", "food", 5, "expense"⟩ : NormalizedTx) ∈
      pipeline "2026-10-12" [⟨some "2025-01-01", some "KFC", none, .num 5, none⟩] ∧
    ∃ tx ∈ [(⟨some "2025-01-01", some "KFC", none, .num 5, none⟩ : Candidate)],
      (truthyStr tx.date = true ∧ "2025-01-01" = tx.date.getD "") ∨
      (truthyStr tx.date = false ∧ "2025-01-01" = "2026-10-12") :=
  ⟨by decide,
   date_passthrough_or_today "2026-10-12"
     [⟨some "2025-01-01", some "KFC", none, .num 5, none⟩]
     ⟨"2025-01-01", "KFC", "food", 5, "expense"⟩ (by decide)⟩

/-- Claim C3 counterexample: when no rule matches, `mapCategory` returns the
fixed string `"other"`, not the caller-supplied category text (`"Fees"` here):
the final line of the source returns the fixed text other unconditionally. -/
theorem category_passthrough_counterexample :
    mapCategory (some "Sundry Purchase") (some "Fees") = "other" ∧
    mapCategory (some "Sundry Purchase") (some "Fees") ≠ "Fees" := by decide

/-- The hypothesis that no merchant-override, category-keyword, or merchant-fallback
rule matches the (lowercased) description and category texts. -/
@[reducible] def noRuleApplies (lowerName lowerCat : String) : Prop :=
  incl lowerName "tangerpay" = false ∧ incl lowerName "qut" = false ∧
  incl lowerName "queensland university" = false ∧ incl lowerName "iglu" = false ∧
  incl lowerCat "eating out" = false ∧ incl lowerCat "takeaway" = false ∧
  incl lowerCat "groceries" = false ∧ incl lowerCat "education" = false ∧
  incl lowerCat "shopping" = false ∧ incl lowerCat "transfer" = false ∧
  incl lowerCat "payment" = false ∧ incl lowerCat "entertainment" = false ∧
  incl lowerCat "transport" = false ∧ incl lowerCat "health" = false ∧
  incl lowerName "kfc" = false ∧ incl lowerName "mcdonald" = false ∧
  incl lowerName "cafe" = false ∧ incl lowerName "mart" = false ∧
  incl lowerName "coles" = false ∧ incl lowerName "woolworths" = false ∧
  incl lowerName "target" = false

/-- Claim C3 (amended): when no merchant-override rule, category-keyword rule, or
merchant-fallback rule matches, `mapCategory` returns `"other"` unconditionally —
whether or not category text was supplied, the text of the caller is never returned. -/
theorem category_no_match_other (name cat : Option String)
    (h : noRuleApplies (lowerStr (name.getD "")) (lowerStr (cat.getD ""))) :
    mapCategory name cat = "other" := by
  obtain ⟨h1, h2, h3, h4, h5, h6, h7, h8, h9, h10, h11, h12, h13, h14, h15, h16, h17,
    h18, h19, h20, h21⟩ := h
  simp [mapCategory, mapCategoryCore, h1, h2, h3, h4, h5, h6, h7, h8, h9, h10, h11, h12,
    h13, h14, h15, h16, h17, h18, h19, h20, h21]

theorem category_no_match_other_witness :
    noRuleApplies (lowerStr "Sundry Purchase") (lowerStr "Fees") ∧
    mapCategory (some "Sundry Purchase") (some "Fees") = "other" :=
  ⟨by decide, category_no_match_other (some "Sundry Purchase") (some "Fees") (by decide)⟩

/-- Claim C7: category rules are first-match-wins, merchant overrides before
category keywords before merchant fallbacks: a "QUT" description resolves to
`education` regardless of the category text; a category keyword (`Groceries`)
beats a merchant fallback (`KFC`); the fallback fires only when neither an
override nor a keyword matched. -/
theorem category_precedence :
    (∀ cat : Option String, mapCategory (some "QUT enrolment") cat = "education") ∧
    mapCategory (some "QUT enrolment") (some "Fees") = "education" ∧
    mapCategory (some "KFC") (some "Groceries") = "groceries" ∧
    mapCategory (some "KFC") (some "zzz") = "food" ∧
    mapCategory (some "Tangerpay Laundromat") (some "Groceries") = "laundry" :=
  ⟨fun _ => rfl, by decide, by decide, by decide, by decide⟩

/-- An argument on which `(x || '').toLowerCase()` cannot throw: either falsy or a
string. -/
def isStringLike (v : JVal) : Prop :=
  jsTruthy v = false ∨ ∃ s, v = JVal.str s

theorem iteMemList {p : Prop} [Decidable p] {a b : α} {l : List α}
    (ha : a ∈ l) (hb : b ∈ l) : (if p then a else b) ∈ l := by
  by_cases h : p
  · rw [if_pos h]; exact ha
  · rw [if_neg h]; exact hb

theorem mapCategoryCore_mem_taxonomy (n c : String) :
    mapCategoryCore n c ∈ categoryTaxonomy := by
  unfold mapCategoryCore
  exact (iteMemList (by decide) (iteMemList (by decide) (iteMemList (by decide) (iteMemList (by decide) (iteMemList (by decide) (iteMemList (by decide) (iteMemList (by decide) (iteMemList (by decide) (iteMemList (by decide) (iteMemList (by decide) (iteMemList (by decide) (iteMemList (by decide) (iteMemList (by decide) (iteMemList (by decide) (by decide)))))))))))))))

/-- Claim C9 counterexample: a truthy non-string argument (the number 500) makes
`mapCategory` throw a TypeError — `(500 || '')` is `500`, which has no
`toLowerCase` method — so the function is not total on all JavaScript inputs. -/
theorem mapCategory_throws_on_number :
    mapCategoryJS (JVal.num 500) (JVal.str "Fees") =
      Except.error "TypeError: toLowerCase is not a function" := by rfl

/-- Claim C9 (amended): on every pair of arguments that is falsy (absent, null,
false, 0, empty) or a string, `mapCategory` returns normally and its result is one
of the eleven fixed category values — never arbitrary caller text; but a truthy
non-string argument (e.g. a number) makes it throw a TypeError. -/
theorem mapCategory_total_on_stringlike (name cat : JVal)
    (h1 : isStringLike name) (h2 : isStringLike cat) :
    ∃ c, mapCategoryJS name cat = Except.ok c ∧ c ∈ categoryTaxonomy := by
  have key : ∀ v : JVal, isStringLike v →
      ∃ s, jsToLowerCase (jsOrEmpty v) = Except.ok (lowerStr s) := by
    intro v hv
    rcases hv with hv | ⟨s, rfl⟩
    · exact ⟨"", by simp [jsOrEmpty, hv, jsToLowerCase]⟩
    · cases ht : jsTruthy (JVal.str s) with
      | true => exact ⟨s, by simp [jsOrEmpty, ht, jsToLowerCase]⟩
      | false => exact ⟨"", by simp [jsOrEmpty, ht, jsToLowerCase]⟩
  obtain ⟨s1, e1⟩ := key name h1
  obtain ⟨s2, e2⟩ := key cat h2
  refine ⟨mapCategoryCore (lowerStr s1) (lowerStr s2), ?_, mapCategoryCore_mem_taxonomy _ _⟩
  simp only [mapCategoryJS, e1, e2]
  rfl

theorem mapCategory_total_on_stringlike_witness :
    isStringLike (JVal.str "KFC") ∧ isStringLike JVal.undef ∧
    ∃ c, mapCategoryJS (JVal.str "KFC") JVal.undef = Except.ok c ∧ c ∈ categoryTaxonomy :=
  ⟨Or.inr ⟨"KFC", rfl⟩, Or.inl rfl,
   mapCategory_total_on_stringlike (JVal.str "KFC") JVal.undef
     (Or.inr ⟨"KFC", rfl⟩) (Or.inl rfl)⟩

/-- Claim C5: when the cleaned model text has no bracket-delimited substring, or
the extracted substring fails JSON parsing, the normalizer yields the empty
transaction list and the endpoint responds with `success: false` and
`transactions: []` — the parse failure is swallowed, never surfaced as a request
error. -/
theorem parse_failure_degrades_to_empty (parse : String → Option (List Candidate))
    (today content : String)
    (h : extractArr (stripFences content) = none ∨
      ∃ s, extractArr (stripFences content) = some s ∧ parse s = none) :
    analyzeContent parse today content = [] ∧
    respond (analyzeContent parse today content) = ⟨false, [], 0⟩ := by
  have hempty : analyzeContent parse today content = [] := by
    rcases h with h | ⟨s, hs, hp⟩
    · simp [analyzeContent, h]
    · simp [analyzeContent, hs, hp]
  exact ⟨hempty, by rw [hempty]; rfl⟩

theorem parse_failure_degrades_to_empty_witness :
    extractArr (stripFences "the model refused to answer") = none ∧
    extractArr (stripFences "```json [not valid json] ```") = some "[not valid json]" ∧
    (analyzeContent (fun _ => none) "2026-10-12" "the model refused to answer" = [] ∧
      respond (analyzeContent (fun _ => none) "2026-10-12" "the model refused to answer") =
        ⟨false, [], 0⟩) ∧
    (analyzeContent (fun _ => none) "2026-10-12" "```json [not valid json] ```" = [] ∧
      respond (analyzeContent (fun _ => none) "2026-10-12" "```json [not valid json] ```") =
        ⟨false, [], 0⟩) :=
  ⟨by decide, by decide,
   parse_failure_degrades_to_empty (fun _ => none) "2026-10-12"
     "the model refused to answer" (Or.inl (by decide)),
   parse_failure_degrades_to_empty (fun _ => none) "2026-10-12"
     "```json [not valid json] ```" (Or.inr ⟨"[not valid json]", by decide, rfl⟩)⟩

/-- Claim C1 counterexample: in the revision with custom-split support the
deduplicator exempts custom-split entries, so a list of two identical
custom-split records keeps both, although the second has an earlier entry with
identical date, identical description, and identical amount — the claimed
"dropped exactly when an earlier entry matches" rule would keep only one, as the
exemption-free declarative filter shows. -/
theorem dedup_custom_exempt_counterexample :
    dedupMain
      [⟨"2025-01-04", "Dinner", none, 150, some "custom", some "Alice", "expense"⟩,
       ⟨"2025-01-04", "Dinner", none, 150, some "custom", some "Alice", "expense"⟩] =
      [⟨"2025-01-04", "Dinner", none, 150, some "custom", some "Alice", "expense"⟩,
       ⟨"2025-01-04", "Dinner", none, 150, some "custom", some "Alice", "expense"⟩] ∧
    isDupMain ⟨"2025-01-04", "Dinner", none, 150, some "custom", some "Alice", "expense"⟩
      ⟨"2025-01-04", "Dinner", none, 150, some "custom", some "Alice", "expense"⟩ = true ∧
    dedupSpecStated
      [⟨"2025-01-04", "Dinner", none, 150, some "custom", some "Alice", "expense"⟩,
       ⟨"2025-01-04", "Dinner", none, 150, some "custom", some "Alice", "expense"⟩] =
      [⟨"2025-01-04", "Dinner", none, 150, some "custom", some "Alice", "expense"⟩] := by
  decide

/-- Claim C1 (amended): the deduplicator keeps every custom-split entry; every
other entry is dropped exactly when some earlier entry of the list has an
identical date string, an identical description string, and an amount differing
by less than 0.01; survivors keep their original relative order (the output is
an order-preserving subsequence of the input). -/
theorem dedup_keep_first_characterization (l : List MainTx) :
    dedupMain l = dedupSpecExempt l ∧ List.Sublist (dedupMain l) l := by
  rw [dedupMain, dedupSpecExempt]
  exact ⟨jsKeepFirst_eq_spec isDupMain isCustomSplit isDupMain_refl l,
    jsKeepFirst_sublist isDupMain isCustomSplit isDupMain_refl l⟩

/-- Claim C10: the keep-first duplicate-removal filter is idempotent — a second
pass over its own output changes nothing — because any two entries that both
survive the first pass fail the duplicate test (they differ in date, in
description, or by at least 0.01 in amount). -/
theorem dedup_idempotent (l : List NormalizedTx) :
    dedupTransactions (dedupTransactions l) = dedupTransactions l ∧
    List.Pairwise (fun a b => isDup a b = false) (dedupTransactions l) := by
  have hpw : List.Pairwise (fun a b => isDup a b = false) (dedupTransactions l) := by
    rw [dedupTransactions, jsKeepFirst_eq_acc _ _ isDup_refl]
    exact keepAcc_pairwise isDup l []
  refine ⟨?_, hpw⟩
  conv_lhs => rw [dedupTransactions, jsKeepFirst_eq_acc _ _ isDup_refl]
  exact keepAcc_of_pairwise isDup (dedupTransactions l) [] hpw (fun x _ => rfl)

/-- Every category except `"food"` and `"vehicle"` is a fixed point of a second
run of the category table over the same merchant name: the merchant-override
categories re-fire on the name, and the remaining cat-rule categories contain
their own keyword.  (`"food"` from a keyword and `"vehicle"` from `"transport"`
are the two non-fixed points.) -/
theorem mapCategoryCore_stable (n c c1 : String)
    (h : mapCategoryCore n c = c1) (hf : c1 ≠ "food") (hv : c1 ≠ "vehicle") :
    mapCategoryCore n (lowerStr c1) = c1 := by
  rw [mapCategoryCore] at h
  by_cases hA : incl n "tangerpay" = true
  · rw [if_pos hA] at h
    subst h
    rw [mapCategoryCore]
    rw [if_pos hA]
  · rw [if_neg hA] at h
    by_cases hB : (incl n "qut" || incl n "queensland university") = true
    · rw [if_pos hB] at h
      subst h
      rw [mapCategoryCore]
      rw [if_neg hA, if_pos hB]
    · rw [if_neg hB] at h
      by_cases hC : incl n "iglu" = true
      · rw [if_pos hC] at h
        subst h
        rw [mapCategoryCore]
        rw [if_neg hA, if_neg hB, if_pos hC]
      · rw [if_neg hC] at h
        by_cases hD : (incl c "eating out" || incl c "takeaway") = true
        · rw [if_pos hD] at h
          exact absurd h.symm hf
        · rw [if_neg hD] at h
          by_cases hE : incl c "groceries" = true
          · rw [if_pos hE] at h
            subst h
            rw [mapCategoryCore]
            rw [if_neg hA, if_neg hB, if_neg hC, if_neg (by decide), if_pos (by decide)]
          · rw [if_neg hE] at h
            by_cases hF : incl c "education" = true
            · rw [if_pos hF] at h
              subst h
              rw [mapCategoryCore]
              rw [if_neg hA, if_neg hB, if_neg hC, if_neg (by decide), if_neg (by decide), if_pos (by decide)]
            · rw [if_neg hF] at h
              by_cases hG : incl c "shopping" = true
              · rw [if_pos hG] at h
                subst h
                rw [mapCategoryCore]
                rw [if_neg hA, if_neg hB, if_neg hC, if_neg (by decide), if_neg (by decide), if_neg (by decide), if_pos (by decide)]
              · rw [if_neg hG] at h
                by_cases hH : (incl c "transfer" || incl c "payment") = true
                · rw [if_pos hH] at h
                  subst h
                  rw [mapCategoryCore]
                  rw [if_neg hA, if_neg hB, if_neg hC, if_neg (by decide), if_neg (by decide), if_neg (by decide), if_neg (by decide), if_pos (by decide)]
                · rw [if_neg hH] at h
                  by_cases hI : incl c "entertainment" = true
                  · rw [if_pos hI] at h
                    subst h
                    rw [mapCategoryCore]
                    rw [if_neg hA, if_neg hB, if_neg hC, if_neg (by decide), if_neg (by decide), if_neg (by decide), if_neg (by decide), if_neg (by decide), if_pos (by decide)]
                  · rw [if_neg hI] at h
                    by_cases hJ : incl c "transport" = true
                    · rw [if_pos hJ] at h
                      exact absurd h.symm hv
                    · rw [if_neg hJ] at h
                      by_cases hK : incl c "health" = true
                      · rw [if_pos hK] at h
                        subst h
                        rw [mapCategoryCore]
                        rw [if_neg hA, if_neg hB, if_neg hC, if_neg (by decide), if_neg (by decide), if_neg (by decide), if_neg (by decide), if_neg (by decide), if_neg (by decide), if_neg (by decide), if_pos (by decide)]
                      · rw [if_neg hK] at h
                        by_cases hL : (incl n "kfc" || incl n "mcdonald" || incl n "cafe") = true
                        · rw [if_pos hL] at h
                          exact absurd h.symm hf
                        · rw [if_neg hL] at h
                          by_cases hM : (incl n "mart" || incl n "coles" || incl n "woolworths") = true
                          · rw [if_pos hM] at h
                            subst h
                            rw [mapCategoryCore]
                            rw [if_neg hA, if_neg hB, if_neg hC, if_neg (by decide), if_pos (by decide)]
                          · rw [if_neg hM] at h
                            by_cases hN : incl n "target" = true
                            · rw [if_pos hN] at h
                              subst h
                              rw [mapCategoryCore]
                              rw [if_neg hA, if_neg hB, if_neg hC, if_neg (by decide), if_neg (by decide), if_neg (by decide), if_pos (by decide)]
                            · rw [if_neg hN] at h
                              subst h
                              rw [mapCategoryCore]
                              rw [if_neg hA, if_neg hB, if_neg hC, if_neg (by decide), if_neg (by decide), if_neg (by decide), if_neg (by decide), if_neg (by decide), if_neg (by decide), if_neg (by decide), if_neg (by decide), if_neg hL, if_neg hM, if_neg hN]

theorem jsOr_idem (v : Option String) (t : String) :
    jsOr (some (jsOr v t)) t = jsOr v t := by
  cases v with
  | none =>
    show jsOr (some t) t = t
    simp only [jsOr]
    exact ite_self t
  | some s =>
    cases hs : s == "" with
    | true =>
      have h2 : jsOr (some s) t = t := by simp [jsOr, hs]
      rw [h2]
      simp only [jsOr]
      exact ite_self t
    | false =>
      have h2 : jsOr (some s) t = s := by simp [jsOr, hs]
      rw [h2]
      exact h2

theorem normalizeAmount_idem (q : ℚ) :
    normalizeAmount (normalizeAmount q) = normalizeAmount q := by
  unfold normalizeAmount
  have h1 : ((jsRound (q * 100) : ℤ) : ℚ) / 100 * 100 = ((jsRound (q * 100) : ℤ) : ℚ) := by
    field_simp
  rw [h1]
  have h2 : jsRound ((jsRound (q * 100) : ℤ) : ℚ) = jsRound (q * 100) := by
    unfold jsRound
    rw [add_comm, Int.floor_add_int]
    norm_num
  rw [h2]

theorem NormalizedTx.extEq (a b : NormalizedTx)
    (h1 : a.date = b.date) (h2 : a.description = b.description)
    (h3 : a.category = b.category) (h4 : a.amount = b.amount)
    (h5 : a.txType = b.txType) : a = b := by
  cases a
  cases b
  simp only at h1 h2 h3 h4 h5
  subst h1
  subst h2
  subst h3
  subst h4
  subst h5
  rfl

/-- A record produced by the per-candidate map passes the filter again and maps to
itself, provided its rounded amount stayed positive and its category is neither
`"food"` nor `"vehicle"`. -/
theorem mapTx_recandidate (today : String) (tx : Candidate)
    (hf : filterTx tx = true)
    (ha : 0 < (mapTx today tx).amount)
    (hc1 : (mapTx today tx).category ≠ "food")
    (hc2 : (mapTx today tx).category ≠ "vehicle") :
    filterTx (recandidate (mapTx today tx)) = true ∧
    mapTx today (recandidate (mapTx today tx)) = mapTx today tx := by
  obtain ⟨hdesc, q, hq, hqpos⟩ := (filterTx_iff tx).mp hf
  have hdne : (mapTx today tx).description ≠ "" := by
    simp only [mapTx]
    cases hd : tx.description with
    | none => rw [hd] at hdesc; cases hdesc
    | some s =>
      rw [hd] at hdesc
      simp only [truthyStr] at hdesc
      simp only [Option.getD]
      intro heq
      rw [heq] at hdesc
      simp at hdesc
  constructor
  · rw [filterTx_iff]
    refine ⟨?_, (mapTx today tx).amount, rfl, ha⟩
    simp only [recandidate, truthyStr]
    simp [hdne]
  · refine NormalizedTx.extEq _ _ ?_ ?_ ?_ ?_ ?_
    · show jsOr (some (mapTx today tx).date) today = (mapTx today tx).date
      simp only [mapTx]
      exact jsOr_idem tx.date today
    · rfl
    · show mapCategory (some (mapTx today tx).description) (some (mapTx today tx).category) =
        (mapTx today tx).category
      simp only [mapTx, mapCategory, Option.getD]
      exact mapCategoryCore_stable _ _ _ rfl hc1 hc2
    · show normalizeAmount ((parseAmount (.num (mapTx today tx).amount)).getD 0) =
        (mapTx today tx).amount
      simp only [mapTx, parseAmount, Option.getD]
      exact normalizeAmount_idem _
    · show (if (some (mapTx today tx).txType == some "income") = true
          then "income" else "expense") = (mapTx today tx).txType
      simp only [mapTx]
      have hgen : ∀ b : Bool,
          (if (some (if b = true then "income" else "expense") == some "income") = true
            then "income" else "expense") = (if b = true then "income" else "expense") := by
        intro b
        cases b <;> decide
      exact hgen (tx.ctype == some "income")

theorem pipeline_pairwise (today : String) (cs : List Candidate) :
    List.Pairwise (fun a b => isDup a b = false) (pipeline today cs) := by
  rw [pipeline, dedupTransactions, jsKeepFirst_eq_acc _ _ isDup_refl]
  exact keepAcc_pairwise isDup _ []

/-- Claim C6 counterexample: normalization is not idempotent.  The candidate
`{description: "Pizza Palace", category: "Eating out", amount: 18}` resolves to
category `"food"` via the category-keyword rule; feeding the normalized record
through the normalizer again passes `"food"` as the category text, which matches
no rule, and no merchant rule matches the description either, so the second pass
rewrites the category to `"other"` — the record set changes. -/
theorem normalize_not_idempotent :
    pipeline "2026-10-12"
      [⟨some "2025-01-01", some "Pizza Palace", some "Eating out", .num 18, none⟩] =
      [⟨"2025-01-01", "Pizza Palace", "food", 18, "expense"⟩] ∧
    renormalize "2026-10-12" [⟨"2025-01-01", "Pizza Palace", "food", 18, "expense"⟩] =
      [⟨"2025-01-01", "Pizza Palace", "other", 18, "expense"⟩] ∧
    renormalize "2026-10-12"
        (pipeline "2026-10-12"
          [⟨some "2025-01-01", some "Pizza Palace", some "Eating out", .num 18, none⟩]) ≠
      pipeline "2026-10-12"
        [⟨some "2025-01-01", some "Pizza Palace", some "Eating out", .num 18, none⟩] := by
  decide

/-- Claim C6 (amended): renormalizing the pipeline's own output returns it
unchanged provided every output record kept a positive amount and a category
other than `"food"` and `"vehicle"` (those two categories, when they were
resolved from a category keyword, are not fixed points and can drift to
`"other"`; amount, date, and txType are always fixed points). -/
theorem normalize_idempotent_off_food_vehicle (today : String) (cs : List Candidate)
    (h : ∀ r ∈ pipeline today cs,
      0 < r.amount ∧ r.category ≠ "food" ∧ r.category ≠ "vehicle") :
    renormalize today (pipeline today cs) = pipeline today cs := by
  have hrec : ∀ r ∈ pipeline today cs,
      filterTx (recandidate r) = true ∧ mapTx today (recandidate r) = r := by
    intro r hr
    obtain ⟨tx, hmem, hfx, rfl⟩ := mem_pipeline today cs r hr
    exact mapTx_recandidate today tx hfx (h _ hr).1 (h _ hr).2.1 (h _ hr).2.2
  have hfilter : ((pipeline today cs).map recandidate).filter filterTx =
      (pipeline today cs).map recandidate := by
    rw [List.filter_eq_self]
    intro a hmem
    obtain ⟨r, hr, rfl⟩ := List.mem_map.mp hmem
    exact (hrec r hr).1
  have hmap : ((pipeline today cs).map recandidate).map (mapTx today) = pipeline today cs := by
    rw [List.map_map]
    calc ((pipeline today cs).map (mapTx today ∘ recandidate))
        = (pipeline today cs).map id := by
          apply List.map_congr_left
          intro r hr
          exact (hrec r hr).2
      _ = pipeline today cs := List.map_id _
  rw [renormalize, pipeline, normalizeStage, hfilter, hmap, dedupTransactions,
    jsKeepFirst_eq_acc _ _ isDup_refl]
  exact keepAcc_of_pairwise isDup (pipeline today cs) [] (pipeline_pairwise today cs)
    (fun x _ => rfl)

theorem normalize_idempotent_off_food_vehicle_witness :
    (∀ r ∈ pipeline "2026-10-12"
        [⟨some "2025-01-01", some "Shop A", some "Groceries", .num 5, none⟩],
      0 < r.amount ∧ r.category ≠ "food" ∧ r.category ≠ "vehicle") ∧
    renormalize "2026-10-12"
        (pipeline "2026-10-12"
          [⟨some "2025-01-01", some "Shop A", some "Groceries", .num 5, none⟩]) =
      pipeline "2026-10-12"
        [⟨some "2025-01-01", some "Shop A", some "Groceries", .num 5, none⟩] :=
  ⟨by decide,
   normalize_idempotent_off_food_vehicle "2026-10-12"
     [⟨some "2025-01-01", some "Shop A", some "Groceries", .num 5, none⟩] (by decide)⟩

end MoneyApp
